import Mathlib

/-!
Shallow embedding of the image-text-composer editor core
(`src/app/page.tsx`, `src/lib/utils.ts`, `src/components/Canvas.tsx`,
`src/components/TextProperties.tsx`).

Modelling conventions:
* JS numbers are embedded as `ℚ` (all arithmetic in the embedded code is
  exact on rationals: additions, multiplications, halving, `Math.round`);
  `zIndex` is embedded as `ℤ`, list indices as `ℕ`.
* `Array.prototype.sort` with comparator `(a, b) => a.zIndex - b.zIndex`
  is a stable sort by the total preorder `a.zIndex ≤ b.zIndex`; it is
  embedded as `List.insertionSort`, which is stable for that preorder
  (the earlier element is inserted in front of later elements with an
  equal key).
* The platform text-measurement primitive (`ctx.measureText` after
  setting `ctx.font`) is an external collaborator; it is embedded as an
  explicit parameter `measure : FontSpec → String → ℚ`.
* The ambient random id generator (`Math.random().toString(36)...`) is
  embedded as an explicit `genId : String` parameter.
* React state updates inside one handler are sequenced; the embedding
  threads the state explicitly.
-/

namespace ImageTextComposer

/-- Text alignment, `'left' | 'center' | 'right'` in `types/index.ts`. -/
inductive TextAlign
  | left
  | center
  | right
deriving DecidableEq, Repr

/-- Embeds `TextLayer` from `src/types/index.ts` (the optional cosmetic fields
`scale`, `shadow*`, `background*`, `border*` are carried as plain fields
with their default values; no embedded operation reads them). -/
structure TextLayer where
  id : String
  text : String
  x : ℚ
  y : ℚ
  width : ℚ
  height : ℚ
  rotation : ℚ
  fontSize : ℚ
  fontFamily : String
  fontWeight : String
  color : String
  opacity : ℚ
  textAlign : TextAlign
  isSelected : Bool
  zIndex : ℤ
  isVisible : Bool
deriving DecidableEq, Repr

/-- Embeds `CanvasState` from `src/types/index.ts`; `image` is an opaque data-URL
string or `null`. -/
structure CanvasState where
  image : Option String
  imageWidth : ℚ
  imageHeight : ℚ
  textLayers : List TextLayer
  selectedLayerId : Option String
deriving DecidableEq, Repr

/-- Embeds `ExportOptions.format` from `src/types/index.ts`. -/
inductive ExportFormat
  | png
  | jpg
deriving DecidableEq, Repr

/-- Embeds `ExportOptions` from `src/types/index.ts`. -/
structure ExportOptions where
  format : ExportFormat
  quality : ℚ
  scale : ℚ
deriving DecidableEq, Repr

/-- The font specification string `"${weight} ${size}px ${family}"` the code
assembles before measuring or drawing text, kept structured. -/
structure FontSpec where
  weight : String
  size : ℚ
  family : String
deriving DecidableEq, Repr

/-- The font spec a layer is measured/drawn with at scale 1:
`` `${layer.fontWeight === 'bold' ? 'bold' : 'normal'} ${layer.fontSize}px ${layer.fontFamily}` ``. -/
def layerFont (l : TextLayer) : FontSpec :=
  { weight := if l.fontWeight = "bold" then "bold" else "normal"
    size := l.fontSize
    family := l.fontFamily }

/-! ### `src/lib/utils.ts` -/

/-- Embeds `createDefaultTextLayer` from `src/lib/utils.ts`; the ambient
`generateId()` is passed in as `genId`. -/
def createDefaultTextLayer (genId : String) (x y : ℚ) : TextLayer :=
  { id := genId
    text := "Double click to edit"
    x := x
    y := y
    width := 200
    height := 50
    rotation := 0
    fontSize := 24
    fontFamily := "Arial"
    fontWeight := "normal"
    color := "#000000"
    opacity := 1
    textAlign := TextAlign.left
    isSelected := false
    zIndex := 0
    isVisible := true }

/-- Embeds `getNextZIndex` from `src/lib/utils.ts`:
`Math.max(...layers.map(l => l.zIndex)) + 1`, or `0` on the empty list. -/
def getNextZIndex (layers : List TextLayer) : ℤ :=
  match layers with
  | [] => 0
  | l :: ls => (ls.foldl (fun m t => max m t.zIndex) l.zIndex) + 1

/-- The comparator `(a, b) => a.zIndex - b.zIndex` as a total preorder. -/
def zleAsc (a b : TextLayer) : Prop := a.zIndex ≤ b.zIndex

/-- The comparator `(a, b) => b.zIndex - a.zIndex` as a total preorder. -/
def zleDesc (a b : TextLayer) : Prop := b.zIndex ≤ a.zIndex

instance : DecidableRel zleAsc := fun a b => inferInstanceAs (Decidable (a.zIndex ≤ b.zIndex))

instance : DecidableRel zleDesc := fun a b => inferInstanceAs (Decidable (b.zIndex ≤ a.zIndex))

instance : IsTotal TextLayer zleAsc := ⟨fun a b => le_total a.zIndex b.zIndex⟩

instance : IsTrans TextLayer zleAsc := ⟨fun _ _ _ h1 h2 => le_trans h1 h2⟩

instance : IsTotal TextLayer zleDesc := ⟨fun a b => le_total b.zIndex a.zIndex⟩

instance : IsTrans TextLayer zleDesc := ⟨fun _ _ _ h1 h2 => le_trans h2 h1⟩

/-- Embeds `[...layers].sort((a, b) => a.zIndex - b.zIndex)`: stable ascending
sort by `zIndex`. -/
def sortByZAsc (layers : List TextLayer) : List TextLayer :=
  List.insertionSort zleAsc layers

/-- Embeds `[...layers].sort((a, b) => b.zIndex - a.zIndex)`: stable descending
sort by `zIndex`. -/
def sortByZDesc (layers : List TextLayer) : List TextLayer :=
  List.insertionSort zleDesc layers

/-- Embeds `list.map((layer, index) => ({ ...layer, zIndex: start + index }))`. -/
def assignSequentialZ (start : ℤ) : List TextLayer → List TextLayer
  | [] => []
  | l :: ls => { l with zIndex := start } :: assignSequentialZ (start + 1) ls

/-- Embeds `normalizeZIndexes` from `src/lib/utils.ts`: sort by current `zIndex`
(stably) and reassign sequential z-indexes `0, 1, ...`. -/
def normalizeZIndexes (layers : List TextLayer) : List TextLayer :=
  assignSequentialZ 0 (sortByZAsc layers)

/-- Embeds `reorderLayers` from `src/lib/utils.ts`: splice the element at
`fromIndex` out, splice it back in at `toIndex`, then reassign sequential
z-indexes. The panel only calls it with `fromIndex < layers.length`; an
out-of-range `fromIndex` (where the JS would splice `undefined` back in)
is embedded as reindex-only. -/
def reorderLayers (layers : List TextLayer) (fromIndex toIndex : ℕ) : List TextLayer :=
  match layers.get? fromIndex with
  | none => assignSequentialZ 0 layers
  | some removed =>
    let rest := layers.take fromIndex ++ layers.drop (fromIndex + 1)
    assignSequentialZ 0 (rest.take toIndex ++ removed :: rest.drop toIndex)

/-! ### History management (`src/app/page.tsx`) -/

/-- Embeds `MAX_HISTORY_STEPS` from `src/app/page.tsx`. -/
def MAX_HISTORY_STEPS : ℕ := 20

/-- Embeds `addToHistory` from `src/app/page.tsx`, as a pure function of the
current `(history, historyIndex)` pair: truncate everything after the
cursor (`slice(0, historyIndex + 1)`), push the new state, and if the
length now exceeds `MAX_HISTORY_STEPS` shift off the oldest entry and set
the cursor to `MAX_HISTORY_STEPS - 1`; otherwise the cursor becomes
`length - 1`. The initial cursor in the page is `-1`, so the cursor is an
`ℤ`. -/
def addToHistory (history : List CanvasState) (historyIndex : ℤ)
    (newState : CanvasState) : List CanvasState × ℤ :=
  let newHistory := history.take (historyIndex + 1).toNat ++ [newState]
  if MAX_HISTORY_STEPS < newHistory.length then
    (newHistory.drop 1, (MAX_HISTORY_STEPS : ℤ) - 1)
  else
    (newHistory, (newHistory.length : ℤ) - 1)

/-- The page-level mutable state relevant to the history claims:
`canvasState`, `history`, `historyIndex`. -/
structure AppState where
  canvasState : CanvasState
  history : List CanvasState
  historyIndex : ℤ
deriving DecidableEq, Repr

/-- The initial page state: empty document, `history = []`,
`historyIndex = -1`. -/
def initialAppState : AppState :=
  { canvasState :=
      { image := none
        imageWidth := 0
        imageHeight := 0
        textLayers := []
        selectedLayerId := none }
    history := []
    historyIndex := -1 }

/-- One committed mutation: `setCanvasState(newState)` together with
`addToHistory(newState)`, the pattern every mutating handler in
`src/app/page.tsx` follows. -/
def recordState (st : AppState) (newDoc : CanvasState) : AppState :=
  let hi := addToHistory st.history st.historyIndex newDoc
  { canvasState := newDoc, history := hi.1, historyIndex := hi.2 }

/-- Record a whole sequence of mutated documents, in order. -/
def recordAll (st : AppState) : List CanvasState → AppState
  | [] => st
  | d :: ds => recordAll (recordState st d) ds

/-- Embeds `undo` from `src/app/page.tsx`: only when `historyIndex > 0`,
decrement the cursor and replace the live document with
`history[newIndex]`. (`getD` covers the out-of-range fetch that the
running code never performs while the history invariant holds.) -/
def undo (st : AppState) : AppState :=
  if 0 < st.historyIndex then
    let newIndex := st.historyIndex - 1
    { st with
        historyIndex := newIndex
        canvasState := (st.history.get? newIndex.toNat).getD st.canvasState }
  else st

/-- Embeds `redo` from `src/app/page.tsx`: only when
`historyIndex < history.length - 1`, increment the cursor and replace the
live document with `history[newIndex]`. -/
def redo (st : AppState) : AppState :=
  if st.historyIndex < (st.history.length : ℤ) - 1 then
    let newIndex := st.historyIndex + 1
    { st with
        historyIndex := newIndex
        canvasState := (st.history.get? newIndex.toNat).getD st.canvasState }
  else st

/-- Embeds `canUndo` from `src/app/page.tsx`. -/
def canUndo (st : AppState) : Bool := 0 < st.historyIndex

/-- Embeds `canRedo` from `src/app/page.tsx`. -/
def canRedo (st : AppState) : Bool := st.historyIndex < (st.history.length : ℤ) - 1

/-- Embeds `handleSelectLayer` from `src/app/page.tsx`: set `selectedLayerId`
and record the new state in the history (unconditionally). -/
def handleSelectLayer (st : AppState) (layerId : Option String) : AppState :=
  recordState st { st.canvasState with selectedLayerId := layerId }

/-! ### Layer mutation handlers (`src/app/page.tsx`) -/

/-- A `Partial<TextLayer>` as passed to `handleUpdateLayer`: each field is
either present or absent. Only the fields the embedded call sites use are
carried (the merge `{ ...layer, ...updates }` treats every field
uniformly). -/
structure LayerPatch where
  text : Option String := none
  x : Option ℚ := none
  y : Option ℚ := none
  width : Option ℚ := none
  height : Option ℚ := none
  rotation : Option ℚ := none
  fontSize : Option ℚ := none
  fontFamily : Option String := none
  fontWeight : Option String := none
  color : Option String := none
  opacity : Option ℚ := none
  textAlign : Option TextAlign := none
  isVisible : Option Bool := none
deriving DecidableEq, Repr

/-- The JS spread merge `{ ...layer, ...updates }`. -/
def applyPatch (l : TextLayer) (p : LayerPatch) : TextLayer :=
  { l with
      text := p.text.getD l.text
      x := p.x.getD l.x
      y := p.y.getD l.y
      width := p.width.getD l.width
      height := p.height.getD l.height
      rotation := p.rotation.getD l.rotation
      fontSize := p.fontSize.getD l.fontSize
      fontFamily := p.fontFamily.getD l.fontFamily
      fontWeight := p.fontWeight.getD l.fontWeight
      color := p.color.getD l.color
      opacity := p.opacity.getD l.opacity
      textAlign := p.textAlign.getD l.textAlign
      isVisible := p.isVisible.getD l.isVisible }

/-- Embeds `handleUpdateLayer` from `src/app/page.tsx`, document level: if no
layer is selected return the state unchanged (and record nothing);
otherwise merge the partial fields into every layer whose id equals
`selectedLayerId`. -/
def handleUpdateLayer (doc : CanvasState) (p : LayerPatch) : CanvasState :=
  match doc.selectedLayerId with
  | none => doc
  | some sel =>
    { doc with
        textLayers := doc.textLayers.map fun l =>
          if l.id = sel then applyPatch l p else l }

/-- Embeds `handleDeleteLayer` from `src/app/page.tsx`: filter the layer out,
clear the selection if it pointed at the removed layer, and normalize
z-indexes. -/
def handleDeleteLayer (doc : CanvasState) (layerId : String) : CanvasState :=
  let updatedLayers := doc.textLayers.filter fun l => l.id ≠ layerId
  let newSelectedLayerId :=
    if doc.selectedLayerId = some layerId then none else doc.selectedLayerId
  { doc with
      textLayers := normalizeZIndexes updatedLayers
      selectedLayerId := newSelectedLayerId }

/-- Embeds `handleDuplicateLayer` from `src/app/page.tsx`: if no layer matches
`layerId`, return the state unchanged; otherwise append a copy with the
freshly generated id `genId`, position offset by `(+20, +20)` and
`zIndex = getNextZIndex(...)`, then normalize z-indexes. -/
def handleDuplicateLayer (genId : String) (doc : CanvasState) (layerId : String) :
    CanvasState :=
  match doc.textLayers.find? (fun l => l.id = layerId) with
  | none => doc
  | some layer =>
    let duplicatedLayer : TextLayer :=
      { layer with
          id := genId
          x := layer.x + 20
          y := layer.y + 20
          zIndex := getNextZIndex doc.textLayers }
    { doc with
        textLayers := normalizeZIndexes (doc.textLayers ++ [duplicatedLayer]) }

/-- Embeds `handleAddTextLayer` from `src/app/page.tsx`: no-op when no image is
loaded; otherwise append a default layer centred on the image with
`zIndex = getNextZIndex(...)`, normalize z-indexes and select it. -/
def handleAddTextLayer (genId : String) (doc : CanvasState) : CanvasState :=
  match doc.image with
  | none => doc
  | some _ =>
    let newLayer :=
      { createDefaultTextLayer genId (doc.imageWidth / 2 - 100) (doc.imageHeight / 2 - 25)
          with zIndex := getNextZIndex doc.textLayers }
    { doc with
        textLayers := normalizeZIndexes (doc.textLayers ++ [newLayer])
        selectedLayerId := some newLayer.id }

/-- Embeds `selectedLayer` from `src/app/page.tsx`:
`textLayers.find(l => l.id === selectedLayerId) || null`. -/
def selectedLayer (doc : CanvasState) : Option TextLayer :=
  doc.selectedLayerId.bind fun sel => doc.textLayers.find? fun l => l.id = sel

/-! ### Property-panel handlers (`src/components/TextProperties.tsx`)

Each handler calls `onUpdateLayer` (the page's `handleUpdateLayer`) once
with the changed field and, when a layer is selected, a second time with
the changed field plus remeasured `width`/`height`. Both calls see the
same `selectedLayer` prop (the render-time selected layer of the
document the handler starts from). -/

/-- Embeds `handleFontSizeChange` from `src/components/TextProperties.tsx`:
clamp the size to `[8, 200]`, update it, then remeasure the selected
layer's text with the new size and write `width`/`height`. -/
def handleFontSizeChange (measure : FontSpec → String → ℚ)
    (doc : CanvasState) (fontSize : ℚ) : CanvasState :=
  let newFontSize := max 8 (min 200 fontSize)
  let doc1 := handleUpdateLayer doc { fontSize := some newFontSize }
  match selectedLayer doc with
  | none => doc1
  | some sl =>
    let w := measure
      { weight := if sl.fontWeight = "bold" then "bold" else "normal"
        size := newFontSize
        family := sl.fontFamily } sl.text
    handleUpdateLayer doc1
      { fontSize := some newFontSize, width := some w, height := some newFontSize }

/-- The success path of `handleFontChange` from
`src/components/TextProperties.tsx` (font loaded): update the family,
then remeasure the selected layer's text with the new family and write
`width`/`height`. -/
def handleFontChange (measure : FontSpec → String → ℚ)
    (doc : CanvasState) (fontFamily : String) : CanvasState :=
  let doc1 := handleUpdateLayer doc { fontFamily := some fontFamily }
  match selectedLayer doc with
  | none => doc1
  | some sl =>
    let w := measure
      { weight := if sl.fontWeight = "bold" then "bold" else "normal"
        size := sl.fontSize
        family := fontFamily } sl.text
    handleUpdateLayer doc1
      { fontFamily := some fontFamily, width := some w, height := some sl.fontSize }

/-- Embeds `handleTextChange` from `src/components/TextProperties.tsx`: update
the text, then remeasure the new text with the selected layer's font and
write `width`/`height`. -/
def handleTextChange (measure : FontSpec → String → ℚ)
    (doc : CanvasState) (text : String) : CanvasState :=
  let doc1 := handleUpdateLayer doc { text := some text }
  match selectedLayer doc with
  | none => doc1
  | some sl =>
    let w := measure (layerFont sl) text
    handleUpdateLayer doc1
      { text := some text, width := some w, height := some sl.fontSize }

/-! ### Canvas geometry (`src/components/Canvas.tsx`) -/

/-- Embeds `Math.round`: round half toward positive infinity,
`Math.round(x) = ⌊x + 1/2⌋`. -/
def jsRound (q : ℚ) : ℤ := ⌊q + 1 / 2⌋

/-- Embeds `snapToGrid` from `src/components/Canvas.tsx`:
`Math.round(value / gridSize) * gridSize` with the default
`gridSize = 20`. -/
def snapToGrid (value : ℚ) (gridSize : ℚ) : ℚ :=
  (jsRound (value / gridSize) : ℚ) * gridSize

/-- Embeds `snapToCenter` from `src/components/Canvas.tsx`: clamp each axis to
the image centre when strictly within the 50-unit threshold. -/
def snapToCenter (x y imageWidth imageHeight : ℚ) : ℚ × ℚ :=
  let centerX := imageWidth / 2
  let centerY := imageHeight / 2
  let snapThreshold : ℚ := 50
  let snappedX := if |x - centerX| < snapThreshold then centerX else x
  let snappedY := if |y - centerY| < snapThreshold then centerY else y
  (snappedX, snappedY)

/-- The snap pipeline both `handleMouseMove` and `nudgeLayer` apply to a
candidate position: grid snap per axis when the grid is shown, then
centre snap. -/
def snapPipeline (showGrid : Bool) (imageWidth imageHeight : ℚ)
    (x y : ℚ) : ℚ × ℚ :=
  let newX := if showGrid then snapToGrid x 20 else x
  let newY := if showGrid then snapToGrid y 20 else y
  snapToCenter newX newY imageWidth imageHeight

/-- The per-layer qualification test in `findLayerAtPosition`:
`layer.opacity > 0 && layer.isVisible` (the `tempCtx` null-check always
passes in the embedding). -/
def hitQualifies (l : TextLayer) : Bool :=
  decide (0 < l.opacity) && l.isVisible

/-- The axis-aligned bounding box `findLayerAtPosition` computes for a
layer: `(left, top, width, height)` from the measured text width, with
`textHeight = fontSize` and the left edge depending on `textAlign`. -/
def layerBounds (measure : FontSpec → String → ℚ) (l : TextLayer) : ℚ × ℚ × ℚ × ℚ :=
  let textWidth := measure (layerFont l) l.text
  let textHeight := l.fontSize
  match l.textAlign with
  | TextAlign.left => (l.x, l.y - textHeight, textWidth, textHeight)
  | TextAlign.center => (l.x - textWidth / 2, l.y - textHeight, textWidth, textHeight)
  | TextAlign.right => (l.x - textWidth, l.y - textHeight, textWidth, textHeight)

/-- The containment test of `findLayerAtPosition`:
`x >= layerX && x <= layerX + layerWidth && y >= layerY && y <= layerY + layerHeight`. -/
def hitTestLayer (measure : FontSpec → String → ℚ) (l : TextLayer) (x y : ℚ) : Bool :=
  let b := layerBounds measure l
  decide (b.1 ≤ x ∧ x ≤ b.1 + b.2.2.1 ∧ b.2.1 ≤ y ∧ y ≤ b.2.1 + b.2.2.2)

/-- Embeds `findLayerAtPosition` from `src/components/Canvas.tsx`: walk the
layers in descending `zIndex` order and return the first one that is
visible, has positive opacity and whose bounding box contains the point. -/
def findLayerAtPosition (measure : FontSpec → String → ℚ)
    (layers : List TextLayer) (x y : ℚ) : Option TextLayer :=
  (sortByZDesc layers).find? fun l => hitQualifies l && hitTestLayer measure l x y

/-- Embeds `String.prototype.trim`: strip leading and trailing whitespace.
Embedded structurally (drop whitespace from both ends of the character
list) so that concrete instances evaluate by kernel reduction; it agrees
with JS `trim` on the whitespace the editor can produce. -/
def jsTrim (s : String) : String :=
  String.mk (((s.data.dropWhile Char.isWhitespace).reverse.dropWhile
    Char.isWhitespace).reverse)

/-- Embeds `handleTextEditSave` from `src/components/Canvas.tsx`, as a function
of the editing state and the document. Returns the new document, whether
an update was committed to the canvas (and hence recorded in history),
and the editing-layer id afterwards (always cleared). The update only
happens when a layer is being edited, the trimmed text is nonempty and
the edited layer still exists; the new `width` is the edited text
measured with the layer's current font and the new `height` is the
layer's current `fontSize`. -/
def handleTextEditSave (measure : FontSpec → String → ℚ)
    (editingLayerId : Option String) (editingText : String)
    (doc : CanvasState) : CanvasState × Bool × Option String :=
  match editingLayerId with
  | none => (doc, false, none)
  | some lid =>
    if jsTrim editingText ≠ "" then
      match doc.textLayers.find? (fun l => l.id = lid) with
      | none => (doc, false, none)
      | some layer =>
        let w := measure (layerFont layer) editingText
        ({ doc with
            textLayers := doc.textLayers.map fun l =>
              if l.id = lid then
                { l with text := editingText, width := w, height := layer.fontSize }
              else l }, true, none)
    else (doc, false, none)

/-! ### Export pipeline (`handleExport` in `src/app/page.tsx`) -/

/-- One 2D-context drawing operation performed by `handleExport`.
`fillTextOp` records the anchor in output pixels, the rotation in
degrees about that anchor (the two code paths — translate/rotate/draw at
the local origin versus draw at the anchor — coincide in this
description when the rotation is `0`), the font spec, fill colour,
global alpha and alignment. -/
inductive DrawOp
  | fillRectOp (color : String) (x y w h : ℚ)
  | drawImageOp (x y w h : ℚ)
  | fillTextOp (text : String) (x y : ℚ) (rotation : ℚ) (font : FontSpec)
      (color : String) (alpha : ℚ) (align : TextAlign)
deriving DecidableEq, Repr

/-- The text-layer pass of `handleExport`: sort by ascending `zIndex` and
draw every visible, positive-opacity layer at `scale`, font size scaled,
anchor scaled. -/
def exportTextOps (scale : ℚ) (layers : List TextLayer) : List DrawOp :=
  (sortByZAsc layers).filterMap fun layer =>
    if 0 < layer.opacity ∧ layer.isVisible then
      some (DrawOp.fillTextOp layer.text (layer.x * scale) (layer.y * scale)
        layer.rotation
        { weight := if layer.fontWeight = "bold" then "bold" else "normal"
          size := layer.fontSize * scale
          family := layer.fontFamily }
        layer.color layer.opacity layer.textAlign)
    else none

/-- The successful result of `handleExport`: the offscreen surface size,
the drawing operations in order, and the encoder arguments passed to
`canvas.toDataURL(mimeType, quality)`. -/
structure ExportResult where
  canvasWidth : ℚ
  canvasHeight : ℚ
  ops : List DrawOp
  mimeType : String
  quality : Option ℚ
deriving DecidableEq, Repr

/-- Embeds `handleExport` from `src/app/page.tsx`. It rejects when no background
image is loaded (`!canvasState.image`, surfaced as the context error) and
when the image fails to re-load into the offscreen surface
(`img.onerror`); `imageLoads` stands for that external load outcome.
On success the surface is `(imageWidth·scale, imageHeight·scale)`, the
first operation fills it with opaque white, the image is drawn next,
then the text layers; `quality` reaches the encoder only for `jpg`. -/
def handleExport (imageLoads : Bool) (doc : CanvasState)
    (options : ExportOptions) : Except String ExportResult :=
  match doc.image with
  | none => Except.error "Failed to create canvas context"
  | some _ =>
    if imageLoads then
      let scaledWidth := doc.imageWidth * options.scale
      let scaledHeight := doc.imageHeight * options.scale
      Except.ok
        { canvasWidth := scaledWidth
          canvasHeight := scaledHeight
          ops :=
            DrawOp.fillRectOp "#ffffff" 0 0 scaledWidth scaledHeight ::
            DrawOp.drawImageOp 0 0 scaledWidth scaledHeight ::
            exportTextOps options.scale doc.textLayers
          mimeType := if options.format = ExportFormat.jpg then "image/jpeg" else "image/png"
          quality := if options.format = ExportFormat.jpg then some options.quality else none }
    else Except.error "Failed to load image"

/-! ### Helper lemmas -/

/-- A list of layers has dense z-indexes when reading the `zIndex` fields
off in list order gives `0, 1, ..., N-1`. -/
def denseZ (layers : List TextLayer) : Prop :=
  layers.map (fun l => l.zIndex) = (List.range layers.length).map Int.ofNat

instance (layers : List TextLayer) : Decidable (denseZ layers) :=
  inferInstanceAs (Decidable (_ = _))

theorem assignSequentialZ_length (k : ℤ) (ls : List TextLayer) :
    (assignSequentialZ k ls).length = ls.length := by
  induction ls generalizing k with
  | nil => rfl
  | cons l ls ih => simp [assignSequentialZ, ih]

theorem assignSequentialZ_map_zIndex (k : ℤ) (ls : List TextLayer) :
    (assignSequentialZ k ls).map (fun l => l.zIndex)
      = (List.range ls.length).map (fun i : ℕ => k + (i : ℤ)) := by
  induction ls generalizing k with
  | nil => rfl
  | cons l ls ih =>
    simp only [assignSequentialZ, List.map_cons, List.length_cons,
      List.range_succ_eq_map, List.map_map, ih]
    congr 1
    · simp
    · apply List.map_congr_left
      intro i _
      simp only [Function.comp_apply, Nat.succ_eq_add_one]
      push_cast
      ring

theorem denseZ_assignSequentialZ (ls : List TextLayer) :
    denseZ (assignSequentialZ 0 ls) := by
  unfold denseZ
  rw [assignSequentialZ_map_zIndex, assignSequentialZ_length]
  apply List.map_congr_left
  intro i _
  simp

theorem sortByZAsc_perm (ls : List TextLayer) : (sortByZAsc ls).Perm ls :=
  List.perm_insertionSort zleAsc ls

theorem sortByZAsc_sorted (ls : List TextLayer) : (sortByZAsc ls).Sorted zleAsc :=
  List.sorted_insertionSort zleAsc ls

theorem sortByZAsc_length (ls : List TextLayer) : (sortByZAsc ls).length = ls.length :=
  List.length_insertionSort zleAsc ls

theorem sortByZDesc_perm (ls : List TextLayer) : (sortByZDesc ls).Perm ls :=
  List.perm_insertionSort zleDesc ls

theorem sortByZDesc_sorted (ls : List TextLayer) : (sortByZDesc ls).Sorted zleDesc :=
  List.sorted_insertionSort zleDesc ls

theorem denseZ_normalizeZIndexes (ls : List TextLayer) :
    denseZ (normalizeZIndexes ls) :=
  denseZ_assignSequentialZ (sortByZAsc ls)

theorem normalizeZIndexes_length (ls : List TextLayer) :
    (normalizeZIndexes ls).length = ls.length := by
  unfold normalizeZIndexes
  rw [assignSequentialZ_length, sortByZAsc_length]

theorem denseZ_length (ls : List TextLayer) (h : denseZ ls) :
    ls.map (fun l => l.zIndex) = (List.range ls.length).map Int.ofNat := h

theorem addToHistory_getLast (h : List CanvasState) (i : ℤ) (s : CanvasState) :
    (addToHistory h i s).1.getLast? = some s := by
  simp only [addToHistory]
  split
  · next hgt =>
    have htk : 1 ≤ (h.take (i + 1).toNat).length := by
      simp only [MAX_HISTORY_STEPS, List.length_append, List.length_singleton] at hgt
      omega
    simp only
    rw [List.drop_append_of_le_length htk, List.getLast?_concat]
  · simp only
    rw [List.getLast?_concat]

theorem addToHistory_length_le (h : List CanvasState) (i : ℤ) (s : CanvasState)
    (hlen : h.length ≤ MAX_HISTORY_STEPS) :
    (addToHistory h i s).1.length ≤ MAX_HISTORY_STEPS := by
  simp only [addToHistory]
  have htk : (h.take (i + 1).toNat).length ≤ h.length := by
    simp [List.length_take]
  split
  · next hgt =>
    simp only [List.length_drop, List.length_append, List.length_singleton] at *
    omega
  · next hle =>
    simp only [not_lt] at hle
    simpa using hle

theorem addToHistory_cursor_end (h : List CanvasState) (s : CanvasState)
    (hlen : h.length ≤ MAX_HISTORY_STEPS) :
    (addToHistory h ((h.length : ℤ) - 1) s).1.length = min (h.length + 1) MAX_HISTORY_STEPS ∧
    (addToHistory h ((h.length : ℤ) - 1) s).2
      = ((addToHistory h ((h.length : ℤ) - 1) s).1.length : ℤ) - 1 := by
  have htoNat : ((h.length : ℤ) - 1 + 1).toNat = h.length := by omega
  simp only [addToHistory]
  rw [htoNat, List.take_length]
  split
  · next hgt =>
    simp only [MAX_HISTORY_STEPS, List.length_append, List.length_singleton] at hgt hlen
    constructor
    · simp only [MAX_HISTORY_STEPS, List.length_drop, List.length_append,
        List.length_singleton]
      omega
    · simp only [MAX_HISTORY_STEPS, List.length_drop, List.length_append,
        List.length_singleton]
      omega
  · next hle =>
    simp only [MAX_HISTORY_STEPS, List.length_append, List.length_singleton,
      not_lt] at hle
    constructor
    · simp only [MAX_HISTORY_STEPS, List.length_append, List.length_singleton]
      omega
    · rfl

theorem recordAll_facts (docs : List CanvasState) (st : AppState)
    (hlen : st.history.length ≤ MAX_HISTORY_STEPS)
    (hidx : st.historyIndex = (st.history.length : ℤ) - 1) :
    (recordAll st docs).history.length
      = min (st.history.length + docs.length) MAX_HISTORY_STEPS ∧
    (recordAll st docs).historyIndex
      = ((recordAll st docs).history.length : ℤ) - 1 ∧
    (recordAll st docs).history.getLast? = docs.getLast?.or st.history.getLast? ∧
    (recordAll st docs).canvasState = docs.getLast?.getD st.canvasState := by
  induction docs generalizing st with
  | nil =>
    refine ⟨?_, hidx, by simp [recordAll], by simp [recordAll]⟩
    simp only [recordAll, List.length_nil, Nat.add_zero]
    omega
  | cons d ds ih =>
    have hstep := addToHistory_cursor_end st.history d hlen
    rw [← hidx] at hstep
    have hlast := addToHistory_getLast st.history st.historyIndex d
    have hlen1 : (recordState st d).history.length ≤ MAX_HISTORY_STEPS := by
      show (addToHistory st.history st.historyIndex d).1.length ≤ _
      exact addToHistory_length_le _ _ _ hlen
    have hidx1 : (recordState st d).historyIndex
        = ((recordState st d).history.length : ℤ) - 1 := hstep.2
    have ihd := ih (recordState st d) hlen1 hidx1
    refine ⟨?_, ihd.2.1, ?_, ?_⟩
    · have h1 : (recordState st d).history.length
          = min (st.history.length + 1) MAX_HISTORY_STEPS := hstep.1
      have h2 := ihd.1
      rw [h1] at h2
      simp only [recordAll] at *
      rw [h2]
      simp only [List.length_cons, MAX_HISTORY_STEPS] at *
      omega
    · have h3 := ihd.2.2.1
      have h4 : (recordState st d).history.getLast? = some d := hlast
      rw [h4] at h3
      simp only [recordAll] at *
      rw [h3]
      cases ds with
      | nil => simp [Option.or]
      | cons e es =>
        rw [List.getLast?_cons_cons]
        obtain ⟨a, ha⟩ : ∃ a, (e :: es).getLast? = some a := by
          cases hg : (e :: es).getLast? with
          | some a => exact ⟨a, rfl⟩
          | none => simp at hg
        rw [ha]
        simp [Option.or]
    · have h5 := ihd.2.2.2
      simp only [recordAll] at *
      rw [h5]
      cases ds with
      | nil => simp [recordState]
      | cons e es =>
        rw [List.getLast?_cons_cons]
        obtain ⟨a, ha⟩ : ∃ a, (e :: es).getLast? = some a := by
          cases hg : (e :: es).getLast? with
          | some a => exact ⟨a, rfl⟩
          | none => simp at hg
        rw [ha]
        simp

theorem addToHistory_length_eq (h : List CanvasState) (i : ℤ) (s : CanvasState)
    (hlen : h.length ≤ MAX_HISTORY_STEPS) :
    (addToHistory h i s).1.length
      = min ((h.take (i + 1).toNat).length + 1) MAX_HISTORY_STEPS := by
  have htk : (h.take (i + 1).toNat).length ≤ h.length := by
    simp [List.length_take]
  simp only [addToHistory]
  split
  · next hgt =>
    simp only [MAX_HISTORY_STEPS, List.length_append, List.length_singleton] at hgt hlen
    simp only [MAX_HISTORY_STEPS, List.length_drop, List.length_append,
      List.length_singleton]
    omega
  · next hle =>
    simp only [MAX_HISTORY_STEPS, List.length_append, List.length_singleton,
      not_lt] at hle
    simp only [MAX_HISTORY_STEPS, List.length_append, List.length_singleton]
    omega

theorem addToHistory_index_cursor (h : List CanvasState) (i : ℤ) (s : CanvasState)
    (hlen : h.length ≤ MAX_HISTORY_STEPS) :
    (addToHistory h i s).2 = ((addToHistory h i s).1.length : ℤ) - 1 := by
  have htk : (h.take (i + 1).toNat).length ≤ h.length := by
    simp [List.length_take]
  simp only [addToHistory]
  split
  · next hgt =>
    simp only [MAX_HISTORY_STEPS, List.length_append, List.length_singleton] at hgt hlen
    simp only [MAX_HISTORY_STEPS, List.length_drop, List.length_append,
      List.length_singleton]
    omega
  · next hle => rfl

/-- A small concrete document used by the witnesses. -/
def sampleDoc (n : ℚ) : CanvasState :=
  { image := some "img"
    imageWidth := n
    imageHeight := 300
    textLayers := []
    selectedLayerId := none }

/-- C1: For every sequence of recorded mutations, the history never holds
more than 20 entries: recording truncates entries after the cursor,
appends the new snapshot (which becomes the last entry), evicts the
oldest entry when the length would exceed 20, and leaves the cursor at
`length - 1`; after `N` successive records from the initial state the
history length is exactly `min N 20`, hence exactly 20 when `N > 20`. -/
theorem history_bounded_by_20 :
    (∀ (h : List CanvasState) (i : ℤ) (s : CanvasState),
      h.length ≤ MAX_HISTORY_STEPS →
        (addToHistory h i s).1.length ≤ MAX_HISTORY_STEPS ∧
        (addToHistory h i s).1.getLast? = some s ∧
        (addToHistory h i s).2 = ((addToHistory h i s).1.length : ℤ) - 1) ∧
    ∀ docs : List CanvasState,
      (recordAll initialAppState docs).history.length = min docs.length MAX_HISTORY_STEPS ∧
      (recordAll initialAppState docs).historyIndex
        = ((recordAll initialAppState docs).history.length : ℤ) - 1 ∧
      (recordAll initialAppState docs).history.getLast? = docs.getLast? ∧
      (MAX_HISTORY_STEPS < docs.length →
        (recordAll initialAppState docs).history.length = MAX_HISTORY_STEPS) := by
  constructor
  · intro h i s hlen
    exact ⟨addToHistory_length_le h i s hlen, addToHistory_getLast h i s,
      addToHistory_index_cursor h i s hlen⟩
  · intro docs
    have hfacts := recordAll_facts docs initialAppState (by simp [initialAppState])
      (by simp [initialAppState])
    rw [show initialAppState.history = ([] : List CanvasState) from rfl] at hfacts
    simp only [List.length_nil, Nat.zero_add, List.getLast?_nil,
      Option.or_none] at hfacts
    refine ⟨hfacts.1, hfacts.2.1, hfacts.2.2.1, fun hgt => ?_⟩
    rw [hfacts.1]
    omega

theorem history_bounded_by_20_witness :
    ([] : List CanvasState).length ≤ MAX_HISTORY_STEPS ∧
    MAX_HISTORY_STEPS < (List.replicate 21 (sampleDoc 0)).length ∧
    (recordAll initialAppState (List.replicate 21 (sampleDoc 0))).history.length
      = MAX_HISTORY_STEPS := by
  refine ⟨by simp [MAX_HISTORY_STEPS], by simp [MAX_HISTORY_STEPS], ?_⟩
  exact (history_bounded_by_20.2 (List.replicate 21 (sampleDoc 0))).2.2.2
    (by simp [MAX_HISTORY_STEPS])

/-- C2: From any state whose cursor is valid and whose live document is
the history entry at the cursor (as after any sequence of recorded
mutations), `undo` followed by `redo` restores the exact pre-undo state,
document included; and immediately after a new mutation is recorded —
in particular after a record following the undo — `canRedo` is false.
The final conjunct shows the hypotheses hold after any nonempty sequence
of recorded mutations. -/
theorem undo_redo_restores (st : AppState) (d : CanvasState)
    (h1 : 0 < st.historyIndex)
    (h2 : st.historyIndex < (st.history.length : ℤ))
    (h3 : st.history.get? st.historyIndex.toNat = some st.canvasState)
    (hlen : st.history.length ≤ MAX_HISTORY_STEPS) :
    redo (undo st) = st ∧
    canRedo (recordState st d) = false ∧
    canRedo (recordState (undo st) d) = false ∧
    ∀ docs : List CanvasState, docs ≠ [] →
      (recordAll initialAppState docs).history.get?
          (recordAll initialAppState docs).historyIndex.toNat
        = some (recordAll initialAppState docs).canvasState := by
  have hundo_hist : (undo st).history = st.history := by
    simp only [undo]
    split <;> rfl
  have hcanredo : ∀ s' : AppState, s'.history.length ≤ MAX_HISTORY_STEPS →
      canRedo (recordState s' d) = false := by
    intro s' hlen'
    have hidx := addToHistory_index_cursor s'.history s'.historyIndex d hlen'
    simp only [canRedo, recordState, hidx, decide_eq_false_iff_not, not_lt]
    exact le_refl _
  refine ⟨?_, hcanredo st hlen, hcanredo (undo st) (by rw [hundo_hist]; exact hlen), ?_⟩
  · cases st with
    | mk cs hist idx =>
      simp only at h1 h2 h3
      simp only [undo, redo]
      rw [if_pos h1]
      simp only
      rw [if_pos (show idx - 1 < (hist.length : ℤ) - 1 by omega)]
      have hidx : idx - 1 + 1 = idx := by ring
      rw [hidx, h3]
      rfl
  · intro docs hne
    have hfacts := recordAll_facts docs initialAppState (by simp [initialAppState])
      (by simp [initialAppState])
    rw [show initialAppState.history = ([] : List CanvasState) from rfl] at hfacts
    simp only [List.length_nil, Nat.zero_add, List.getLast?_nil,
      Option.or_none] at hfacts
    obtain ⟨a, ha⟩ : ∃ a, docs.getLast? = some a := by
      cases docs with
      | nil => exact absurd rfl hne
      | cons e es =>
        cases hg : (e :: es).getLast? with
        | some a => exact ⟨a, rfl⟩
        | none => simp at hg
    have hdlen : 1 ≤ docs.length := by
      cases docs with
      | nil => exact absurd rfl hne
      | cons e es => simp
    have hlen' : (recordAll initialAppState docs).history.length
        = min docs.length MAX_HISTORY_STEPS := hfacts.1
    have hge1 : 1 ≤ (recordAll initialAppState docs).history.length := by
      rw [hlen']
      simp only [MAX_HISTORY_STEPS]
      omega
    have htoNat : (recordAll initialAppState docs).historyIndex.toNat
        = (recordAll initialAppState docs).history.length - 1 := by
      rw [hfacts.2.1]
      omega
    rw [htoNat, List.get?_eq_getElem?, ← List.getLast?_eq_getElem?, hfacts.2.2.1, ha,
      hfacts.2.2.2, ha]
    rfl

theorem undo_redo_restores_witness :
    (0 : ℤ) < (AppState.mk (sampleDoc 2) [sampleDoc 1, sampleDoc 2] 1).historyIndex ∧
    redo (undo (AppState.mk (sampleDoc 2) [sampleDoc 1, sampleDoc 2] 1))
      = AppState.mk (sampleDoc 2) [sampleDoc 1, sampleDoc 2] 1 ∧
    canRedo (recordState (AppState.mk (sampleDoc 2) [sampleDoc 1, sampleDoc 2] 1)
      (sampleDoc 3)) = false := by
  have h := undo_redo_restores (AppState.mk (sampleDoc 2) [sampleDoc 1, sampleDoc 2] 1)
    (sampleDoc 3) (by norm_num) (by norm_num) (by rfl) (by norm_num [MAX_HISTORY_STEPS])
  exact ⟨by norm_num, h.1, h.2.1⟩

/-- C10: `handleSelectLayer` (selecting a layer or clearing the
selection) always records a full history entry: the live document with
the new selection becomes the last history entry, and — when the
history invariant holds — the history grows by one entry up to the
20-entry cap, with the cursor at the new entry. -/
theorem selection_changes_recorded (st : AppState) (lid : Option String) :
    (handleSelectLayer st lid).canvasState
      = { st.canvasState with selectedLayerId := lid } ∧
    (handleSelectLayer st lid).history.getLast?
      = some { st.canvasState with selectedLayerId := lid } ∧
    (st.history.length ≤ MAX_HISTORY_STEPS →
      (handleSelectLayer st lid).history.length
        = min ((st.history.take (st.historyIndex + 1).toNat).length + 1)
            MAX_HISTORY_STEPS ∧
      (handleSelectLayer st lid).historyIndex
        = ((handleSelectLayer st lid).history.length : ℤ) - 1) := by
  refine ⟨rfl, addToHistory_getLast _ _ _, fun hlen => ?_⟩
  exact ⟨addToHistory_length_eq _ _ _ hlen, addToHistory_index_cursor _ _ _ hlen⟩

theorem selection_changes_recorded_witness :
    (AppState.mk (sampleDoc 1) [sampleDoc 1] 0).history.length ≤ MAX_HISTORY_STEPS ∧
    (handleSelectLayer (AppState.mk (sampleDoc 1) [sampleDoc 1] 0) (some "x")).history.length
      = 2 := by
  have h := selection_changes_recorded (AppState.mk (sampleDoc 1) [sampleDoc 1] 0)
    (some "x")
  refine ⟨by norm_num [MAX_HISTORY_STEPS], ?_⟩
  rw [(h.2.2 (by norm_num [MAX_HISTORY_STEPS])).1]
  rfl

theorem orderedInsert_append_greatest (x a : TextLayer) (hxa : zleAsc x a) :
    ∀ s : List TextLayer,
      List.orderedInsert zleAsc x (s ++ [a]) = List.orderedInsert zleAsc x s ++ [a]
  | [] => by
    simp only [List.nil_append, List.orderedInsert]
    rw [if_pos hxa]
    rfl
  | b :: bs => by
    simp only [List.cons_append, List.orderedInsert]
    by_cases h : zleAsc x b
    · rw [if_pos h, if_pos h]
      simp
    · rw [if_neg h, if_neg h]
      have hrec := orderedInsert_append_greatest x a hxa bs
      simp only [List.append_eq] at hrec ⊢
      rw [hrec]
      simp

theorem sortByZAsc_append_greatest (a : TextLayer) :
    ∀ ls : List TextLayer, (∀ x ∈ ls, zleAsc x a) →
      sortByZAsc (ls ++ [a]) = sortByZAsc ls ++ [a]
  | [] => by intro _; rfl
  | x :: xs => by
    intro h
    show List.insertionSort zleAsc (x :: (xs ++ [a]))
      = List.insertionSort zleAsc (x :: xs) ++ [a]
    simp only [List.insertionSort]
    rw [show List.insertionSort zleAsc (xs ++ [a])
        = List.insertionSort zleAsc xs ++ [a] from
      sortByZAsc_append_greatest a xs (fun m hm => h m (List.mem_cons_of_mem x hm))]
    exact orderedInsert_append_greatest x a (h x (List.mem_cons_self x xs)) _

theorem assignSequentialZ_append (k : ℤ) (l1 l2 : List TextLayer) :
    assignSequentialZ k (l1 ++ l2)
      = assignSequentialZ k l1 ++ assignSequentialZ (k + l1.length) l2 := by
  induction l1 generalizing k with
  | nil => simp [assignSequentialZ]
  | cons x xs ih =>
    have harg : (k + 1) + (xs.length : ℤ) = k + ((x :: xs).length : ℤ) := by
      simp only [List.length_cons]
      push_cast
      ring
    simp only [List.cons_append, assignSequentialZ, List.append_eq]
    rw [ih, harg]

theorem getNextZIndex_gt (ls : List TextLayer) :
    ∀ x ∈ ls, x.zIndex < getNextZIndex ls := by
  have hinit : ∀ (t : List TextLayer) (b : ℤ),
      b ≤ t.foldl (fun m x => max m x.zIndex) b := by
    intro t
    induction t with
    | nil => intro b; exact le_refl b
    | cons c cs ih =>
      intro b
      calc b ≤ max b c.zIndex := le_max_left _ _
        _ ≤ cs.foldl (fun m x => max m x.zIndex) (max b c.zIndex) := ih _
  have hmem : ∀ (t : List TextLayer) (b : ℤ) (x : TextLayer), x ∈ t →
      x.zIndex ≤ t.foldl (fun m x => max m x.zIndex) b := by
    intro t
    induction t with
    | nil => intro b x hx; exact absurd hx (List.not_mem_nil x)
    | cons c cs ih =>
      intro b x hx
      simp only [List.foldl_cons]
      rcases List.mem_cons.mp hx with hxc | hxcs
      · subst hxc
        calc x.zIndex ≤ max b x.zIndex := le_max_right _ _
          _ ≤ cs.foldl (fun m y => max m y.zIndex) (max b x.zIndex) := hinit _ _
      · exact ih (max b c.zIndex) x hxcs
  intro x hx
  cases ls with
  | nil => exact absurd hx (List.not_mem_nil x)
  | cons l t =>
    rcases List.mem_cons.mp hx with hxl | hxt
    · subst hxl
      have := hinit t x.zIndex
      simp only [getNextZIndex]
      omega
    · have := hmem t l.zIndex x hxt
      simp only [getNextZIndex]
      omega

theorem assignSequentialZ_map_id (k : ℤ) (ls : List TextLayer) :
    (assignSequentialZ k ls).map (fun l => l.id) = ls.map (fun l => l.id) := by
  induction ls generalizing k with
  | nil => rfl
  | cons l t ih => simp [assignSequentialZ, ih]

theorem normalizeZIndexes_map_id_perm (ls : List TextLayer) :
    ((normalizeZIndexes ls).map (fun l => l.id)).Perm (ls.map (fun l => l.id)) := by
  unfold normalizeZIndexes
  rw [assignSequentialZ_map_id]
  exact (sortByZAsc_perm ls).map _

/-- A small concrete layer and document used by the witnesses. -/
def sampleLayer : TextLayer := { createDefaultTextLayer "a" 10 10 with zIndex := 0 }

def sampleLayerDoc : CanvasState :=
  { image := some "img"
    imageWidth := 400
    imageHeight := 300
    textLayers := [sampleLayer]
    selectedLayerId := some "a" }

/-- C3: After any structural operation — normalization itself, reorder,
delete, add (image loaded), duplicate (id found) — the `zIndex` values
read off the resulting layer list are exactly `0, 1, ..., N-1`, with no
gaps and no duplicates; normalization stably sorts the layers by their
prior `zIndex` (a permutation, sorted, and the identity ordering on an
already-sorted list), so the prior relative z-order is preserved. -/
theorem zIndex_density (ls : List TextLayer) (doc : CanvasState)
    (lid genId : String) (fromIndex toIndex : ℕ) :
    denseZ (normalizeZIndexes ls) ∧
    denseZ (reorderLayers ls fromIndex toIndex) ∧
    denseZ ((handleDeleteLayer doc lid).textLayers) ∧
    (doc.image ≠ none → denseZ ((handleAddTextLayer genId doc).textLayers)) ∧
    (doc.textLayers.find? (fun l => l.id = lid) ≠ none →
      denseZ ((handleDuplicateLayer genId doc lid).textLayers)) ∧
    (sortByZAsc ls).Perm ls ∧
    (sortByZAsc ls).Sorted zleAsc ∧
    (ls.Sorted zleAsc → normalizeZIndexes ls = assignSequentialZ 0 ls) := by
  refine ⟨denseZ_normalizeZIndexes ls, ?_, ?_, ?_, ?_,
    sortByZAsc_perm ls, sortByZAsc_sorted ls, ?_⟩
  · unfold reorderLayers
    split
    · exact denseZ_assignSequentialZ _
    · exact denseZ_assignSequentialZ _
  · show denseZ (normalizeZIndexes _)
    exact denseZ_normalizeZIndexes _
  · intro himg
    unfold handleAddTextLayer
    split
    · next heq => exact absurd heq himg
    · next s heq => exact denseZ_normalizeZIndexes _
  · intro hfind
    unfold handleDuplicateLayer
    split
    · next heq => exact absurd heq hfind
    · next l heq => exact denseZ_normalizeZIndexes _
  · intro hs
    unfold normalizeZIndexes sortByZAsc
    rw [hs.insertionSort_eq]

theorem zIndex_density_witness :
    sampleLayerDoc.image ≠ none ∧
    sampleLayerDoc.textLayers.find? (fun l => l.id = "a") ≠ none ∧
    denseZ ((handleAddTextLayer "b" sampleLayerDoc).textLayers) ∧
    denseZ ((handleDuplicateLayer "b" sampleLayerDoc "a").textLayers) := by
  have h := zIndex_density [] sampleLayerDoc "a" "b" 0 0
  exact ⟨by simp [sampleLayerDoc], by decide,
    h.2.2.2.1 (by simp [sampleLayerDoc]), h.2.2.2.2.1 (by decide)⟩

/-- C7: `handleDuplicateLayer` with an id that is not found returns the
document unchanged; with a found source layer it appends a clone of the
source carrying the supplied generated id, offset by `(+20, +20)`, placed
on top (last, with `zIndex = N` where `N` is the prior layer count), the
whole list renormalized to dense z-indexes; when the generated id is
fresh the result contains exactly one layer with that id; in a
single-layer document the result is the source at `zIndex 0` and the
duplicate at `(+20, +20)` with `zIndex 1`. -/
theorem duplicateLayer_correct (genId : String) (doc : CanvasState) (lid : String) :
    (doc.textLayers.find? (fun l => l.id = lid) = none →
      handleDuplicateLayer genId doc lid = doc) ∧
    ∀ l, doc.textLayers.find? (fun l => l.id = lid) = some l →
      (handleDuplicateLayer genId doc lid).textLayers
          = normalizeZIndexes doc.textLayers
            ++ [{ l with
              id := genId, x := l.x + 20, y := l.y + 20,
              zIndex := (doc.textLayers.length : ℤ) }] ∧
      (handleDuplicateLayer genId doc lid).textLayers.length
          = doc.textLayers.length + 1 ∧
      denseZ ((handleDuplicateLayer genId doc lid).textLayers) ∧
      (genId ∉ doc.textLayers.map (fun m => m.id) →
        ((handleDuplicateLayer genId doc lid).textLayers.map (fun m => m.id)).count genId
          = 1) ∧
      ∀ l0, doc.textLayers = [l0] →
        (handleDuplicateLayer genId doc lid).textLayers.map
            (fun m => (m.id, m.x, m.y, m.zIndex))
          = [(l0.id, l0.x, l0.y, (0 : ℤ)), (genId, l0.x + 20, l0.y + 20, (1 : ℤ))] := by
  constructor
  · intro hnone
    unfold handleDuplicateLayer
    split
    · rfl
    · next l heq => rw [hnone] at heq; exact absurd heq (by simp)
  · intro l hfind
    have hall : ∀ x ∈ doc.textLayers,
        zleAsc x { l with
          id := genId, x := l.x + 20, y := l.y + 20,
          zIndex := getNextZIndex doc.textLayers } := by
      intro x hx
      exact le_of_lt (getNextZIndex_gt doc.textLayers x hx)
    have hkey : (handleDuplicateLayer genId doc lid).textLayers
        = normalizeZIndexes doc.textLayers
          ++ [{ l with
            id := genId, x := l.x + 20, y := l.y + 20,
            zIndex := (doc.textLayers.length : ℤ) }] := by
      unfold handleDuplicateLayer
      split
      · next heq => rw [hfind] at heq; exact absurd heq (by simp)
      · next l' heq =>
        have hl : l' = l := by
          rw [hfind] at heq
          exact ((Option.some.injEq l l').mp heq).symm
        subst hl
        show normalizeZIndexes (doc.textLayers ++ [_]) = _
        unfold normalizeZIndexes
        rw [sortByZAsc_append_greatest _ doc.textLayers hall, assignSequentialZ_append]
        congr 1
        simp [assignSequentialZ, sortByZAsc_length]
    have hd : denseZ ((handleDuplicateLayer genId doc lid).textLayers) := by
      unfold handleDuplicateLayer
      split
      · next heq => rw [hfind] at heq; exact absurd heq (by simp)
      · next l' heq => exact denseZ_normalizeZIndexes _
    refine ⟨hkey, ?_, hd, ?_, ?_⟩
    · rw [hkey]
      simp [normalizeZIndexes_length]
    · intro hfresh
      rw [hkey]
      simp only [List.map_append, List.map_cons, List.map_nil, List.count_append]
      have h0 : ((normalizeZIndexes doc.textLayers).map (fun m => m.id)).count genId
          = (doc.textLayers.map (fun m => m.id)).count genId :=
        (normalizeZIndexes_map_id_perm doc.textLayers).count_eq genId
      rw [h0, List.count_eq_zero.mpr hfresh]
      simp
    · intro l0 hls
      have hl0 : l = l0 := by
        rw [hls] at hfind
        by_cases hid : l0.id = lid
        · simp [List.find?_cons_of_pos, hid] at hfind
          exact hfind.symm
        · rw [List.find?_cons_of_neg _ (by simpa using hid)] at hfind
          simp at hfind
      subst hl0
      rw [hkey, hls]
      simp [normalizeZIndexes, sortByZAsc, List.insertionSort, List.orderedInsert,
        assignSequentialZ]

theorem duplicateLayer_correct_witness :
    sampleLayerDoc.textLayers.find? (fun l => l.id = "a") = some sampleLayer ∧
    (handleDuplicateLayer "b" sampleLayerDoc "a").textLayers.length = 2 ∧
    (handleDuplicateLayer "b" sampleLayerDoc "a").textLayers.map
        (fun m => (m.id, m.x, m.y, m.zIndex))
      = [("a", 10, 10, (0 : ℤ)), ("b", 30, 30, (1 : ℤ))] := by
  have h := (duplicateLayer_correct "b" sampleLayerDoc "a").2 sampleLayer (by decide)
  refine ⟨by decide, h.2.1, ?_⟩
  have h5 := h.2.2.2.2 sampleLayer rfl
  rw [h5]
  norm_num [sampleLayer, createDefaultTextLayer]

/-- A concrete stand-in for the platform text-measurement primitive,
used by witnesses and counterexamples: every text measures 20 units
wide. -/
def sampleMeasure : FontSpec → String → ℚ := fun _ _ => 20

/-- C4: `handleUpdateLayer` is the identity when no layer is selected
(nothing is recorded either, see the definition); otherwise it merges the
partial fields into exactly the layers matching the selected id, leaving
every other field of the document unchanged. The property-panel
font-size, font-family and text handlers, and the canvas text-edit
commit, additionally write `width` measured from the resulting text with
the resulting font specification and `height` equal to the resulting
font size. -/
theorem updateLayer_correct (measure : FontSpec → String → ℚ) (doc : CanvasState)
    (p : LayerPatch) (fs : ℚ) (fam txt etext : String) :
    (doc.selectedLayerId = none → handleUpdateLayer doc p = doc) ∧
    (∀ sel, doc.selectedLayerId = some sel →
      (handleUpdateLayer doc p).textLayers
        = doc.textLayers.map (fun l => if l.id = sel then applyPatch l p else l) ∧
      (handleUpdateLayer doc p).image = doc.image ∧
      (handleUpdateLayer doc p).imageWidth = doc.imageWidth ∧
      (handleUpdateLayer doc p).imageHeight = doc.imageHeight ∧
      (handleUpdateLayer doc p).selectedLayerId = doc.selectedLayerId) ∧
    (∀ sel sl, doc.selectedLayerId = some sel → selectedLayer doc = some sl →
      (handleFontSizeChange measure doc fs).textLayers
        = doc.textLayers.map (fun l =>
            if l.id = sel then
              { l with
                fontSize := max 8 (min 200 fs),
                width := measure { weight := if sl.fontWeight = "bold" then "bold" else "normal",
                                   size := max 8 (min 200 fs),
                                   family := sl.fontFamily } sl.text,
                height := max 8 (min 200 fs) }
            else l) ∧
      (handleFontChange measure doc fam).textLayers
        = doc.textLayers.map (fun l =>
            if l.id = sel then
              { l with
                fontFamily := fam,
                width := measure { weight := if sl.fontWeight = "bold" then "bold" else "normal",
                                   size := sl.fontSize,
                                   family := fam } sl.text,
                height := sl.fontSize }
            else l) ∧
      (handleTextChange measure doc txt).textLayers
        = doc.textLayers.map (fun l =>
            if l.id = sel then
              { l with
                text := txt,
                width := measure (layerFont sl) txt,
                height := sl.fontSize }
            else l)) ∧
    (∀ lid layer, jsTrim etext ≠ "" →
      doc.textLayers.find? (fun l => l.id = lid) = some layer →
      (handleTextEditSave measure (some lid) etext doc).1.textLayers
        = doc.textLayers.map (fun l =>
            if l.id = lid then
              { l with
                text := etext,
                width := measure (layerFont layer) etext,
                height := layer.fontSize }
            else l) ∧
      (handleTextEditSave measure (some lid) etext doc).2.1 = true) := by
  refine ⟨?_, ?_, ?_, ?_⟩
  · intro h
    unfold handleUpdateLayer
    split
    · rfl
    · next sel heq => rw [h] at heq; exact absurd heq (by simp)
  · intro sel hsel
    unfold handleUpdateLayer
    split
    · next heq => rw [hsel] at heq; exact absurd heq (by simp)
    · next sel' heq =>
      have : sel' = sel := by
        rw [hsel] at heq
        exact ((Option.some.injEq sel sel').mp heq).symm
      subst this
      exact ⟨rfl, rfl, rfl, rfl, rfl⟩
  · intro sel sl hsel hsl
    have honeG : ∀ (d : CanvasState) (q : LayerPatch), d.selectedLayerId = some sel →
        (handleUpdateLayer d q).textLayers
          = d.textLayers.map (fun l => if l.id = sel then applyPatch l q else l) := by
      intro d q hd
      unfold handleUpdateLayer
      split
      · next heq => rw [hd] at heq; exact absurd heq (by simp)
      · next sel' heq =>
        have : sel' = sel := by
          rw [hd] at heq
          exact ((Option.some.injEq sel sel').mp heq).symm
        subst this
        rfl
    have hselG : ∀ (d : CanvasState) (q : LayerPatch),
        (handleUpdateLayer d q).selectedLayerId = d.selectedLayerId := by
      intro d q
      unfold handleUpdateLayer
      split
      · rfl
      · rfl
    have hcomp : ∀ (p1 p2 : LayerPatch),
        (handleUpdateLayer (handleUpdateLayer doc p1) p2).textLayers
          = doc.textLayers.map
              (fun l => if l.id = sel then applyPatch (applyPatch l p1) p2 else l) := by
      intro p1 p2
      rw [honeG (handleUpdateLayer doc p1) p2 (by rw [hselG]; exact hsel),
        honeG doc p1 hsel, List.map_map]
      apply List.map_congr_left
      intro l _
      by_cases hid : l.id = sel
      · have hidp : (applyPatch l p1).id = l.id := rfl
        simp only [Function.comp_apply]
        rw [if_pos hid, if_pos (hidp.trans hid), if_pos hid]
      · simp [Function.comp_apply, hid]
    refine ⟨?_, ?_, ?_⟩
    · simp only [handleFontSizeChange, hsl]
      rw [hcomp]
      apply List.map_congr_left
      intro l _
      by_cases hid : l.id = sel
      · simp [hid, applyPatch]
      · simp [hid]
    · simp only [handleFontChange, hsl]
      rw [hcomp]
      apply List.map_congr_left
      intro l _
      by_cases hid : l.id = sel
      · simp [hid, applyPatch]
      · simp [hid]
    · simp only [handleTextChange, hsl]
      rw [hcomp]
      apply List.map_congr_left
      intro l _
      by_cases hid : l.id = sel
      · simp [hid, applyPatch]
      · simp [hid]
  · intro lid layer htrim hfind
    simp only [handleTextEditSave]
    rw [if_pos htrim, hfind]
    exact ⟨rfl, rfl⟩

theorem updateLayer_correct_witness :
    sampleLayerDoc.selectedLayerId = some "a" ∧
    selectedLayer sampleLayerDoc = some sampleLayer ∧
    (handleFontSizeChange sampleMeasure sampleLayerDoc 30).textLayers
      = sampleLayerDoc.textLayers.map (fun l =>
          if l.id = "a" then
            { l with
              fontSize := max 8 (min 200 30),
              width := sampleMeasure
                { weight := if sampleLayer.fontWeight = "bold" then "bold" else "normal",
                  size := max 8 (min 200 30),
                  family := sampleLayer.fontFamily } sampleLayer.text,
              height := max 8 (min 200 30) }
          else l) := by
  refine ⟨rfl, by decide, ?_⟩
  exact ((updateLayer_correct sampleMeasure sampleLayerDoc {} 30 "Arial" "t" "e").2.2.1
    "a" sampleLayer rfl (by decide)).1

/-- C9: Committing a text edit whose text trims to the empty string is a
no-op on the document: no layer is touched, nothing is recorded in the
history, and only the editing mode is exited. -/
theorem textEditSave_blank_noop (measure : FontSpec → String → ℚ)
    (editingLayerId : Option String) (editingText : String) (doc : CanvasState)
    (h : jsTrim editingText = "") :
    handleTextEditSave measure editingLayerId editingText doc = (doc, false, none) := by
  cases editingLayerId with
  | none => rfl
  | some lid =>
    simp only [handleTextEditSave]
    rw [if_neg (by simp [h])]

theorem textEditSave_blank_noop_witness :
    (jsTrim "  " = "") ∧
    handleTextEditSave sampleMeasure (some "a") "  " sampleLayerDoc
      = (sampleLayerDoc, false, none) :=
  ⟨by decide,
    textEditSave_blank_noop sampleMeasure (some "a") "  " sampleLayerDoc (by decide)⟩

/-- The hit-test iteration as the spec's words describe it (§4.3:
"iterate visible layers from highest to lowest zIndex ... Return the
first (topmost) layer whose box contains the point"), where "visible" is
the spec's §3 notion — the `isVisible` flag — with no opacity condition.
Written only to compare against the code's `findLayerAtPosition`. -/
def findLayerAtPositionSpec (measure : FontSpec → String → ℚ)
    (layers : List TextLayer) (x y : ℚ) : Option TextLayer :=
  (sortByZDesc layers).find? fun l => l.isVisible && hitTestLayer measure l x y

/-- An invisible-by-opacity top layer over an opaque bottom layer, both
containing the probe point `(5, 5)`. -/
def cxTop : TextLayer :=
  { createDefaultTextLayer "top" 0 10 with
    text := "hi", fontSize := 10, opacity := 0, zIndex := 1 }

def cxBot : TextLayer :=
  { createDefaultTextLayer "bot" 0 10 with
    text := "hi", fontSize := 10, zIndex := 0 }

theorem find?_desc_max (p : TextLayer → Bool) :
    ∀ (s : List TextLayer), s.Sorted zleDesc → ∀ l, s.find? p = some l →
      ∀ x ∈ s, p x = true → x.zIndex ≤ l.zIndex
  | [], _, l, hf => by simp at hf
  | b :: bs, hs, l, hf => by
    intro x hx hpx
    rcases List.sorted_cons.mp hs with ⟨hb, hs2⟩
    by_cases hpb : p b = true
    · rw [List.find?_cons_of_pos _ hpb] at hf
      have hlb : b = l := by
        exact (Option.some.injEq b l).mp hf
      rcases List.mem_cons.mp hx with hxb | hxbs
      · subst hxb
        rw [← hlb]
      · have hzle := hb x hxbs
        rw [← hlb]
        exact hzle
    · rw [List.find?_cons_of_neg _ (by simpa using hpb)] at hf
      rcases List.mem_cons.mp hx with hxb | hxbs
      · subst hxb
        exact absurd hpx hpb
      · exact find?_desc_max p bs hs2 l hf x hxbs hpx

theorem orderedInsert_map_zIndexEq (f : TextLayer → TextLayer)
    (hf : ∀ l, (f l).zIndex = l.zIndex) (a : TextLayer) :
    ∀ s : List TextLayer,
      List.orderedInsert zleDesc (f a) (s.map f)
        = (List.orderedInsert zleDesc a s).map f
  | [] => rfl
  | b :: bs => by
    simp only [List.map_cons, List.orderedInsert]
    by_cases h : zleDesc a b
    · rw [if_pos (show zleDesc (f a) (f b) by
        simp only [zleDesc, hf]; exact h), if_pos h]
      simp
    · rw [if_neg (show ¬zleDesc (f a) (f b) by
        simp only [zleDesc, hf]; exact h), if_neg h]
      rw [orderedInsert_map_zIndexEq f hf a bs]
      simp

theorem sortByZDesc_map_zIndexEq (f : TextLayer → TextLayer)
    (hf : ∀ l, (f l).zIndex = l.zIndex) :
    ∀ s : List TextLayer, sortByZDesc (s.map f) = (sortByZDesc s).map f
  | [] => rfl
  | a :: s => by
    show List.insertionSort zleDesc (f a :: s.map f)
      = (List.insertionSort zleDesc (a :: s)).map f
    simp only [List.insertionSort]
    rw [show List.insertionSort zleDesc (s.map f)
        = (List.insertionSort zleDesc s).map f from sortByZDesc_map_zIndexEq f hf s]
    exact orderedInsert_map_zIndexEq f hf a _

/-- C5 counterexample: on a stack with an `isVisible` but zero-opacity
top layer over an opaque bottom layer, the spec's "first visible layer
whose box contains the point" is the top layer, but the code (which also
requires `opacity > 0`) returns the bottom layer. -/
theorem hitTest_visible_counterexample :
    findLayerAtPositionSpec sampleMeasure [cxTop, cxBot] 5 5 = some cxTop ∧
    findLayerAtPosition sampleMeasure [cxTop, cxBot] 5 5 = some cxBot ∧
    cxTop ≠ cxBot := by
  have hsort : sortByZDesc [cxTop, cxBot] = [cxTop, cxBot] := by
    simp [sortByZDesc, List.insertionSort, List.orderedInsert, zleDesc,
      cxTop, cxBot, createDefaultTextLayer]
  have hhitTop : hitTestLayer sampleMeasure cxTop 5 5 = true := by
    simp only [hitTestLayer, layerBounds, cxTop, createDefaultTextLayer,
      sampleMeasure, layerFont]
    norm_num
  have hhitBot : hitTestLayer sampleMeasure cxBot 5 5 = true := by
    simp only [hitTestLayer, layerBounds, cxBot, createDefaultTextLayer,
      sampleMeasure, layerFont]
    norm_num
  refine ⟨?_, ?_, by decide⟩
  · simp only [findLayerAtPositionSpec]
    rw [hsort]
    rw [List.find?_cons_of_pos]
    rw [hhitTop]
    simp [cxTop, createDefaultTextLayer]
  · simp only [findLayerAtPosition]
    rw [hsort]
    rw [List.find?_cons_of_neg, List.find?_cons_of_pos]
    · rw [hhitBot]
      simp [hitQualifies, cxBot, createDefaultTextLayer]
    · simp [hitQualifies, cxTop, createDefaultTextLayer]

/-- C5 amended: hit-testing iterates the layers that are visible and
have positive opacity from highest to lowest `zIndex`, returning the
first whose axis-aligned box contains the point (or none): the box's
left edge is `x` for left alignment, `x - textWidth/2` for centre,
`x - textWidth` for right; its top edge is `y - textHeight` with height
`textHeight = fontSize`; and rotation is ignored regardless of its
value. -/
theorem findLayerAtPosition_correct (measure : FontSpec → String → ℚ)
    (layers : List TextLayer) (x y r : ℚ) :
    (∀ l : TextLayer, hitTestLayer measure l x y = true ↔
      ((match l.textAlign with
        | TextAlign.left => l.x
        | TextAlign.center => l.x - measure (layerFont l) l.text / 2
        | TextAlign.right => l.x - measure (layerFont l) l.text) ≤ x ∧
       x ≤ (match l.textAlign with
        | TextAlign.left => l.x
        | TextAlign.center => l.x - measure (layerFont l) l.text / 2
        | TextAlign.right => l.x - measure (layerFont l) l.text)
          + measure (layerFont l) l.text ∧
       l.y - l.fontSize ≤ y ∧ y ≤ (l.y - l.fontSize) + l.fontSize)) ∧
    (∀ l, findLayerAtPosition measure layers x y = some l →
      l ∈ layers ∧ (0 < l.opacity ∧ l.isVisible = true) ∧
      hitTestLayer measure l x y = true ∧
      ∀ m ∈ layers, 0 < m.opacity → m.isVisible = true →
        hitTestLayer measure m x y = true → m.zIndex ≤ l.zIndex) ∧
    (findLayerAtPosition measure layers x y = none →
      ∀ m ∈ layers, 0 < m.opacity → m.isVisible = true →
        hitTestLayer measure m x y = false) ∧
    (findLayerAtPosition measure (layers.map fun l => { l with rotation := r }) x y
      = (findLayerAtPosition measure layers x y).map fun l => { l with rotation := r }) := by
  refine ⟨?_, ?_, ?_, ?_⟩
  · intro l
    cases hta : l.textAlign <;>
      simp [hitTestLayer, layerBounds, hta]
  · intro l hf
    have hf2 : (sortByZDesc layers).find?
        (fun m => hitQualifies m && hitTestLayer measure m x y) = some l := hf
    have hmem : l ∈ layers :=
      (sortByZDesc_perm layers).subset (List.mem_of_find?_eq_some hf2)
    have hp := List.find?_some hf2
    simp only [Bool.and_eq_true] at hp
    have hq : 0 < l.opacity ∧ l.isVisible = true := by
      have := hp.1
      simp only [hitQualifies, Bool.and_eq_true, decide_eq_true_eq] at this
      exact this
    refine ⟨hmem, hq, hp.2, ?_⟩
    intro m hm hmo hmv hmh
    apply find?_desc_max _ (sortByZDesc layers) (sortByZDesc_sorted layers) l hf2 m
      ((sortByZDesc_perm layers).mem_iff.mpr hm)
    simp only [hitQualifies, Bool.and_eq_true, decide_eq_true_eq]
    exact ⟨⟨hmo, hmv⟩, hmh⟩
  · intro hf m hm hmo hmv
    have hf2 : (sortByZDesc layers).find?
        (fun m => hitQualifies m && hitTestLayer measure m x y) = none := hf
    have hnm := List.find?_eq_none.mp hf2 m ((sortByZDesc_perm layers).mem_iff.mpr hm)
    simp only [hitQualifies, Bool.and_eq_true, decide_eq_true_eq, not_and] at hnm
    rcases hb : hitTestLayer measure m x y with _ | _
    · rfl
    · exact absurd hb (by intro hbb; exact (hnm ⟨hmo, hmv⟩) hbb)
  · have hfeq : ((fun l => hitQualifies l && hitTestLayer measure l x y) ∘
        (fun l => { l with rotation := r }))
        = (fun l => hitQualifies l && hitTestLayer measure l x y) :=
      funext fun l => rfl
    unfold findLayerAtPosition
    rw [sortByZDesc_map_zIndexEq (fun l => { l with rotation := r }) (fun l => rfl) layers,
      List.find?_map, hfeq]

theorem findLayerAtPosition_correct_witness :
    findLayerAtPosition sampleMeasure [cxBot] 5 5 = some cxBot ∧
    cxBot ∈ [cxBot] ∧ (0 < cxBot.opacity ∧ cxBot.isVisible = true) ∧
    hitTestLayer sampleMeasure cxBot 5 5 = true := by
  have hhitBot : hitTestLayer sampleMeasure cxBot 5 5 = true := by
    simp only [hitTestLayer, layerBounds, cxBot, createDefaultTextLayer,
      sampleMeasure, layerFont]
    norm_num
  have hfind : findLayerAtPosition sampleMeasure [cxBot] 5 5 = some cxBot := by
    simp only [findLayerAtPosition]
    rw [show sortByZDesc [cxBot] = [cxBot] from rfl]
    rw [List.find?_cons_of_pos]
    rw [hhitBot]
    simp [hitQualifies, cxBot, createDefaultTextLayer]
  have h := (findLayerAtPosition_correct sampleMeasure [cxBot] 5 5 0).2.1 cxBot hfind
  exact ⟨hfind, h.1, h.2.1, h.2.2.1⟩

/-- One axis of the snap pipeline: grid snap (when active) then centre
clamp, exactly as `snapPipeline` treats each coordinate. -/
def snapAxis (sg : Bool) (center v : ℚ) : ℚ :=
  if |(if sg then snapToGrid v 20 else v) - center| < 50 then center
  else (if sg then snapToGrid v 20 else v)

theorem snapPipeline_axes (sg : Bool) (w h x y : ℚ) :
    snapPipeline sg w h x y = (snapAxis sg (w / 2) x, snapAxis sg (h / 2) y) := rfl

theorem jsRound_intCast (k : ℤ) : jsRound (k : ℚ) = k := by
  unfold jsRound
  rw [add_comm, Int.floor_add_int]
  norm_num

theorem snapToGrid_multiple (k : ℤ) : snapToGrid (20 * (k : ℚ)) 20 = 20 * k := by
  unfold snapToGrid
  rw [mul_div_cancel_left₀ _ (by norm_num : (20 : ℚ) ≠ 0), jsRound_intCast]
  ring

theorem snapToGrid_idem (v : ℚ) : snapToGrid (snapToGrid v 20) 20 = snapToGrid v 20 := by
  have hk : snapToGrid v 20 = 20 * ((jsRound (v / 20) : ℤ) : ℚ) := by
    unfold snapToGrid
    ring
  rw [hk, snapToGrid_multiple]

theorem snapToGrid_close (v : ℚ) : |snapToGrid v 20 - v| ≤ 10 := by
  have h1 : ((jsRound (v / 20) : ℤ) : ℚ) ≤ v / 20 + 1 / 2 := Int.floor_le _
  have h2 : v / 20 + 1 / 2 < ((jsRound (v / 20) : ℤ) : ℚ) + 1 := Int.lt_floor_add_one _
  have hv : v = 20 * (v / 20) := by ring
  unfold snapToGrid
  rw [abs_le]
  constructor <;> linarith

theorem snapAxis_at_center (sg : Bool) (c : ℚ) : snapAxis sg c c = c := by
  cases sg with
  | false =>
    show (if |c - c| < 50 then c else c) = c
    simp
  | true =>
    show (if |snapToGrid c 20 - c| < 50 then c else snapToGrid c 20) = c
    rw [if_pos (lt_of_le_of_lt (snapToGrid_close c) (by norm_num))]

theorem snapAxis_fixed (sg : Bool) (c v : ℚ) (hk : ∃ k : ℤ, v = 20 * k)
    (hfar : 50 ≤ |v - c|) : snapAxis sg c v = v := by
  obtain ⟨k, rfl⟩ := hk
  cases sg with
  | false =>
    show (if |20 * (k : ℚ) - c| < 50 then c else 20 * (k : ℚ)) = 20 * (k : ℚ)
    rw [if_neg (not_lt.mpr hfar)]
  | true =>
    show (if |snapToGrid (20 * (k : ℚ)) 20 - c| < 50 then c
      else snapToGrid (20 * (k : ℚ)) 20) = 20 * (k : ℚ)
    rw [snapToGrid_multiple, if_neg (not_lt.mpr hfar)]

theorem snapAxis_idem (sg : Bool) (c v : ℚ) :
    snapAxis sg c (snapAxis sg c v) = snapAxis sg c v := by
  cases sg with
  | false =>
    by_cases h : |v - c| < 50
    · have hres : snapAxis false c v = c := by
        show (if |v - c| < 50 then c else v) = c
        rw [if_pos h]
      rw [hres, snapAxis_at_center]
    · have hres : snapAxis false c v = v := by
        show (if |v - c| < 50 then c else v) = v
        rw [if_neg h]
      rw [hres]
      show (if |v - c| < 50 then c else v) = v
      rw [if_neg h]
  | true =>
    by_cases h : |snapToGrid v 20 - c| < 50
    · have hres : snapAxis true c v = c := by
        show (if |snapToGrid v 20 - c| < 50 then c else snapToGrid v 20) = c
        rw [if_pos h]
      rw [hres, snapAxis_at_center]
    · have hres : snapAxis true c v = snapToGrid v 20 := by
        show (if |snapToGrid v 20 - c| < 50 then c else snapToGrid v 20) = _
        rw [if_neg h]
      rw [hres]
      show (if |snapToGrid (snapToGrid v 20) 20 - c| < 50 then c
        else snapToGrid (snapToGrid v 20) 20) = snapToGrid v 20
      rw [snapToGrid_idem, if_neg h]

/-- C6 counterexample: in a 220×220 document the grid-aligned position
`(100, 100)` (both coordinates multiples of 20, as `snapToGrid` leaving
them fixed shows) is moved by the pipeline to the centre `(110, 110)` —
so "snapping an already-grid-aligned position returns it unchanged" is
false for the full pipeline. -/
theorem snapPipeline_gridAligned_counterexample :
    snapToGrid 100 20 = 100 ∧
    snapPipeline true 220 220 100 100 = (110, 110) ∧
    ((110 : ℚ), (110 : ℚ)) ≠ ((100 : ℚ), (100 : ℚ)) := by
  have h100 : snapToGrid (100 : ℚ) 20 = 100 := by
    have he : (100 : ℚ) = 20 * ((5 : ℤ) : ℚ) := by norm_num
    rw [he, snapToGrid_multiple]
  have hax : snapAxis true ((220 : ℚ) / 2) 100 = 110 := by
    show (if |snapToGrid (100 : ℚ) 20 - 220 / 2| < 50 then (220 : ℚ) / 2
      else snapToGrid 100 20) = 110
    rw [h100, if_pos (by norm_num)]
    norm_num
  refine ⟨h100, ?_, by simp [Prod.ext_iff]⟩
  rw [snapPipeline_axes, hax]

/-- C6 amended: the pipeline applies grid snap first (when grid mode is
active) and centre snap second; it is idempotent (applying it twice
equals applying it once); grid snap alone leaves a grid-aligned
coordinate unchanged; the full pipeline leaves a grid-aligned position
unchanged provided each axis is at least the 50-unit threshold away from
the document centre; and a position exactly at the document's centre maps
to exactly the centre. -/
theorem snapPipeline_correct (sg : Bool) (w h x y : ℚ) :
    (sg = true → snapPipeline sg w h x y
      = snapToCenter (snapToGrid x 20) (snapToGrid y 20) w h) ∧
    (sg = false → snapPipeline sg w h x y = snapToCenter x y w h) ∧
    snapPipeline sg w h (snapPipeline sg w h x y).1 (snapPipeline sg w h x y).2
      = snapPipeline sg w h x y ∧
    ((∃ k : ℤ, x = 20 * k) → 50 ≤ |x - w / 2| →
     (∃ k : ℤ, y = 20 * k) → 50 ≤ |y - h / 2| →
      snapPipeline sg w h x y = (x, y)) ∧
    snapPipeline sg w h (w / 2) (h / 2) = (w / 2, h / 2) ∧
    ((∃ k : ℤ, x = 20 * k) → snapToGrid x 20 = x) := by
  refine ⟨?_, ?_, ?_, ?_, ?_, ?_⟩
  · intro hsg
    subst hsg
    rfl
  · intro hsg
    subst hsg
    rfl
  · rw [snapPipeline_axes sg w h x y, snapPipeline_axes]
    simp only
    rw [snapAxis_idem, snapAxis_idem, ← snapPipeline_axes]
  · intro hkx hfarx hky hfary
    rw [snapPipeline_axes, snapAxis_fixed sg _ _ hkx hfarx, snapAxis_fixed sg _ _ hky hfary]
  · rw [snapPipeline_axes, snapAxis_at_center, snapAxis_at_center]
  · rintro ⟨k, hk⟩
    rw [hk, snapToGrid_multiple]

theorem snapPipeline_correct_witness :
    snapPipeline true 400 300 100 100 = (100, 100) ∧
    snapToGrid 100 20 = 100 := by
  have h := snapPipeline_correct true 400 300 100 100
  have hfarx : (50 : ℚ) ≤ |100 - 400 / 2| := by
    rw [show (100 : ℚ) - 400 / 2 = -100 by norm_num, abs_neg]
    norm_num
  have hfary : (50 : ℚ) ≤ |100 - 300 / 2| := by
    rw [show (100 : ℚ) - 300 / 2 = -50 by norm_num, abs_neg]
    norm_num
  constructor
  · exact h.2.2.2.1 ⟨5, by norm_num⟩ hfarx ⟨5, by norm_num⟩ hfary
  · exact h.2.2.2.2.2 ⟨5, by norm_num⟩

/-- C8: `handleExport` fails when no background image is loaded (and
when the image fails to re-load), touching no document state — the
embedding returns only an error; on success the offscreen surface is
`(imageWidth·scale, imageHeight·scale)`, the very first drawing
operation fills the whole surface with opaque white (before the image
and text are drawn), and the `quality` option reaches the encoder
exactly when the format is `jpg`, never for `png`. -/
theorem export_correct (doc : CanvasState) (o : ExportOptions) (b : Bool)
    (s : String) (r : ExportResult) :
    (doc.image = none →
      handleExport b doc o = Except.error "Failed to create canvas context") ∧
    (doc.image = some s →
      handleExport false doc o = Except.error "Failed to load image") ∧
    (handleExport true doc o = Except.ok r →
      r.canvasWidth = doc.imageWidth * o.scale ∧
      r.canvasHeight = doc.imageHeight * o.scale ∧
      r.ops.head? = some (DrawOp.fillRectOp "#ffffff" 0 0
        (doc.imageWidth * o.scale) (doc.imageHeight * o.scale)) ∧
      r.ops.get? 1 = some (DrawOp.drawImageOp 0 0
        (doc.imageWidth * o.scale) (doc.imageHeight * o.scale)) ∧
      (o.format = ExportFormat.jpg → r.quality = some o.quality) ∧
      (o.format = ExportFormat.png → r.quality = none) ∧
      r.mimeType = (if o.format = ExportFormat.jpg then "image/jpeg" else "image/png")) := by
  refine ⟨?_, ?_, ?_⟩
  · intro himg
    unfold handleExport
    split
    · rfl
    · next s2 heq => rw [himg] at heq; exact absurd heq (by simp)
  · intro himg
    unfold handleExport
    split
    · next heq => rw [himg] at heq; exact absurd heq (by simp)
    · next s2 heq => rfl
  · intro hok
    have hsome : doc.image ≠ none := by
      intro hnone
      unfold handleExport at hok
      rw [hnone] at hok
      exact absurd hok (by simp)
    obtain ⟨s2, hs2⟩ := Option.ne_none_iff_exists'.mp hsome
    unfold handleExport at hok
    rw [hs2] at hok
    simp only [if_pos] at hok
    have hr := ((Except.ok.injEq _ _).mp hok).symm
    subst hr
    refine ⟨rfl, rfl, rfl, rfl, ?_, ?_, rfl⟩
    · intro hfmt
      rw [hfmt]
      rfl
    · intro hfmt
      rw [hfmt]
      rfl

theorem export_correct_witness :
    handleExport false (sampleDoc 400) (ExportOptions.mk ExportFormat.png 1 2)
      = Except.error "Failed to load image" ∧
    handleExport true (sampleDoc 400) (ExportOptions.mk ExportFormat.jpg (1 / 2) 2)
      = Except.ok
        { canvasWidth := (sampleDoc 400).imageWidth * 2
          canvasHeight := (sampleDoc 400).imageHeight * 2
          ops := [DrawOp.fillRectOp "#ffffff" 0 0
              ((sampleDoc 400).imageWidth * 2) ((sampleDoc 400).imageHeight * 2),
            DrawOp.drawImageOp 0 0
              ((sampleDoc 400).imageWidth * 2) ((sampleDoc 400).imageHeight * 2)]
          mimeType := "image/jpeg"
          quality := some (1 / 2) } ∧
    (ExportResult.mk ((sampleDoc 400).imageWidth * 2) ((sampleDoc 400).imageHeight * 2)
      [DrawOp.fillRectOp "#ffffff" 0 0
          ((sampleDoc 400).imageWidth * 2) ((sampleDoc 400).imageHeight * 2),
        DrawOp.drawImageOp 0 0
          ((sampleDoc 400).imageWidth * 2) ((sampleDoc 400).imageHeight * 2)]
      "image/jpeg" (some (1 / 2))).quality = some (1 / 2) := by
  have h1 := (export_correct (sampleDoc 400) (ExportOptions.mk ExportFormat.png 1 2)
    false "img" (ExportResult.mk 0 0 [] "x" none)).2.1 rfl
  have hok : handleExport true (sampleDoc 400) (ExportOptions.mk ExportFormat.jpg (1 / 2) 2)
      = Except.ok
        { canvasWidth := (sampleDoc 400).imageWidth * 2
          canvasHeight := (sampleDoc 400).imageHeight * 2
          ops := [DrawOp.fillRectOp "#ffffff" 0 0
              ((sampleDoc 400).imageWidth * 2) ((sampleDoc 400).imageHeight * 2),
            DrawOp.drawImageOp 0 0
              ((sampleDoc 400).imageWidth * 2) ((sampleDoc 400).imageHeight * 2)]
          mimeType := "image/jpeg"
          quality := some (1 / 2) } := rfl
  have h2 := (export_correct (sampleDoc 400) (ExportOptions.mk ExportFormat.jpg (1 / 2) 2)
    true "img" _).2.2 hok
  exact ⟨h1, hok, h2.2.2.2.2.1 rfl⟩

end ImageTextComposer
